import Mathlib

/-!
Verification of the IWillDraw layer-stack editor (React + Konva).

Shallow embedding of `src/src/App.jsx` and the `LayersPanel` components
(`src/unnamed/part_000`, `src/unnamed/part_001`).

Modelling conventions:
* JS numbers that carry coordinates, sizes and opacities are modelled as `ℚ`.
* `uuidv4()` is modelled by a monotone counter `nextId` kept in the state;
  only freshness matters to the program.
* React `useState` semantics: inside one event handler every read of a state
  variable (`layers`, `history`, `historyIndex`, ...) sees the value captured
  at render time, and `setX` only replaces the value that the *next* event
  will observe.  Each handler is therefore embedded as one pure function
  `AppState → AppState` in which `pushHistory` reads the fields of the state
  the handler started from (`pushHistoryFrom s0 s`), exactly mirroring the
  stale-closure reads of the source.
* `JSON.stringify({ layers })` / `JSON.parse` round-trip structurally on the
  values stored in a layer, so a history snapshot is modelled as the
  deep-copied `List Layer` itself.
* The JS objects are heterogeneous (`isBase`, `src` present on some layers
  only); absent fields are modelled as always-present defaults
  (`isBase = false`, `src = ""`).
-/

/-- One freehand stroke, as built by `handleMouseDown` / `handleMouseMove` in
`App.jsx`: `{ id, points, color, size, opacity, mode: tool }`.  `points` is the
flat `[x1, y1, x2, y2, ...]` array the source keeps. -/
structure Stroke where
  id : Nat
  points : List ℚ
  color : String
  size : ℚ
  opacity : ℚ
  mode : String
deriving DecidableEq

/-- A layer object as created in `App.jsx` (`addLayer`, the initial background
layer, `handleUpload`).  `type` is `"raster"` or `"image"`; `content` holds
strokes (always `[]` in the source: drawing writes to the ephemeral `lines`
map instead); `src` is the image data URL for `type = "image"` layers. -/
structure Layer where
  id : Nat
  name : String
  type : String
  isBase : Bool
  visible : Bool
  opacity : ℚ
  blend : String
  content : List Stroke
  src : String
deriving DecidableEq

def defaultLayer : Layer :=
  { id := 0, name := "", type := "raster", isBase := false, visible := true,
    opacity := 1, blend := "normal", content := [], src := "" }

/-- The component state of `App` in `App.jsx`: the `useState` hooks that the
claims touch, plus the uuid counter. -/
structure AppState where
  tool : String
  brushColor : String
  brushSize : ℚ
  brushOpacity : ℚ
  layers : List Layer
  activeLayerId : Nat
  lines : List (Nat × List Stroke)
  history : List (List Layer)
  historyIndex : Int
  isDrawing : Bool
  nextId : Nat
deriving DecidableEq

/-- JS object-spread key update `{ ...prev, [k]: v }` on the `lines` map:
overwrite the entry if the key is present, otherwise append it. -/
def objSet (m : List (Nat × List Stroke)) (k : Nat) (v : List Stroke) :
    List (Nat × List Stroke) :=
  if m.any (fun p => p.1 = k) then
    m.map (fun p => if p.1 = k then (k, v) else p)
  else m ++ [(k, v)]

/-- `prev[lid] || []`: the stroke list for a layer id in the `lines` map. -/
def linesOf (s : AppState) (lid : Nat) : List Stroke :=
  (s.lines.lookup lid).getD []

/-- `pushHistory` (App.jsx lines 194-200) as it executes inside a handler that
started from state `s0`: `history`, `historyIndex` and `layers` are the
render-time values of `s0` (stale closure), while the writes land on `s`, the
state accumulated by the handler so far.
`history.slice(0, historyIndex + 1)` is `take (historyIndex + 1).toNat`
(`historyIndex` never goes below `-1`, where the slice is empty). -/
def pushHistoryFrom (s0 s : AppState) : AppState :=
  let next := s0.history.take (s0.historyIndex + 1).toNat ++ [s0.layers]
  { s with history := next, historyIndex := (next.length : Int) - 1 }

/-- `pushHistory()` called first in a handler (or from the mount effect). -/
def pushHistory (s : AppState) : AppState := pushHistoryFrom s s

/-- `undo` (App.jsx lines 202-207). -/
def undo (s : AppState) : AppState :=
  if s.historyIndex ≤ 0 then s
  else
    let prev := s.history.getD (s.historyIndex - 1).toNat []
    { s with layers := prev, historyIndex := s.historyIndex - 1 }

/-- `redo` (App.jsx lines 208-213). -/
def redo (s : AppState) : AppState :=
  if s.historyIndex ≥ (s.history.length : Int) - 1 then s
  else
    let next := s.history.getD (s.historyIndex + 1).toNat []
    { s with layers := next, historyIndex := s.historyIndex + 1 }

/-- `addLayer` (App.jsx lines 215-221).  Note that the final `pushHistory()`
reads the render-time `layers`, not the just-set `next`. -/
def addLayer (s : AppState) (name : String) : AppState :=
  let newLayer : Layer :=
    { id := s.nextId, name := name, type := "raster", isBase := false,
      visible := true, opacity := 1, blend := "normal", content := [], src := "" }
  let next := s.layers ++ [newLayer]
  pushHistoryFrom s
    { s with layers := next, activeLayerId := newLayer.id, nextId := s.nextId + 1 }

/-- `deleteLayer` (App.jsx lines 223-229).  Refuses only when exactly one
layer remains; there is no `isBase` check in the function itself. -/
def deleteLayer (s : AppState) (id : Nat) : AppState :=
  if s.layers.length = 1 then s
  else
    let next := s.layers.filter (fun l => l.id ≠ id)
    let s1 := { s with layers := next }
    let s2 :=
      if s.activeLayerId = id then
        { s1 with activeLayerId := (next.getLastD defaultLayer).id }
      else s1
    pushHistoryFrom s s2

/-- `reorderLayer` (App.jsx lines 231-240): clamp the target index to the
array bounds, splice the item out and back in, then push history. -/
def reorderLayer (s : AppState) (id : Nat) (direction : Int) : AppState :=
  match s.layers.findIdx? (fun l => l.id = id) with
  | none => s
  | some idx =>
    let newIdx := (min ((s.layers.length : Int) - 1)
      (max 0 ((idx : Int) + direction))).toNat
    let item := s.layers.getD idx defaultLayer
    let copy := (s.layers.eraseIdx idx).insertIdx newIdx item
    pushHistoryFrom s { s with layers := copy }

/-- `handleMouseDown` (App.jsx lines 243-252): start a stroke in the
ephemeral `lines` map keyed by the active layer id. -/
def handleMouseDown (s : AppState) (pos : ℚ × ℚ) : AppState :=
  if s.tool ≠ "brush" ∧ s.tool ≠ "eraser" then s
  else
    let lid := s.activeLayerId
    let stroke : Stroke :=
      { id := s.nextId, points := [pos.1, pos.2], color := s.brushColor,
        size := s.brushSize, opacity := s.brushOpacity, mode := s.tool }
    { s with isDrawing := true, nextId := s.nextId + 1,
             lines := objSet s.lines lid (linesOf s lid ++ [stroke]) }

/-- `handleMouseMove` (App.jsx lines 254-268): append the pointer position to
the last stroke of the active layer's entry in `lines`. -/
def handleMouseMove (s : AppState) (pos : ℚ × ℚ) : AppState :=
  if ¬ s.isDrawing then s
  else if s.tool ≠ "brush" ∧ s.tool ≠ "eraser" then s
  else
    let lid := s.activeLayerId
    let list := linesOf s lid
    match list.getLast? with
    | none => s
    | some lastStroke =>
      let upd := { lastStroke with points := lastStroke.points ++ [pos.1, pos.2] }
      { s with lines := objSet s.lines lid (list.dropLast ++ [upd]) }

/-- `handleMouseUp` (App.jsx lines 270-274): stop drawing and push a
snapshot.  The snapshot serializes `layers`, which the gesture never touched. -/
def handleMouseUp (s : AppState) : AppState :=
  if s.tool ≠ "brush" ∧ s.tool ≠ "eraser" then s
  else pushHistoryFrom s { s with isDrawing := false }

/-- `handleMouseLeave` (App.jsx lines 276-278). -/
def handleMouseLeave (s : AppState) : AppState := { s with isDrawing := false }

/-- `toggleVisibility` from the LayersPanel (part_000 lines 14-18): a bare
`setLayers` map, with no history push. -/
def toggleVisibility (layers : List Layer) (id : Nat) : List Layer :=
  layers.map (fun l => if l.id = id then { l with visible := ¬ l.visible } else l)

/-- `changeOpacity` from the LayersPanel (part_000 lines 20-24): stores the
given value verbatim, with no clamping and no history push. -/
def changeOpacity (layers : List Layer) (id : Nat) (value : ℚ) : List Layer :=
  layers.map (fun l => if l.id = id then { l with opacity := value } else l)

/-- `changeBlendMode` from the LayersPanel (part_000 lines 26-30). -/
def changeBlendMode (layers : List Layer) (id : Nat) (value : String) : List Layer :=
  layers.map (fun l => if l.id = id then { l with blend := value } else l)

/-- `toggleVisibility` at the App level: the panel's `setLayers` updates only
the `layers` state. -/
def toggleVisibilityApp (s : AppState) (id : Nat) : AppState :=
  { s with layers := toggleVisibility s.layers id }

/-- `changeOpacity` at the App level. -/
def changeOpacityApp (s : AppState) (id : Nat) (value : ℚ) : AppState :=
  { s with layers := changeOpacity s.layers id value }

/-- `changeBlendMode` at the App level. -/
def changeBlendModeApp (s : AppState) (id : Nat) (value : String) : AppState :=
  { s with layers := changeBlendMode s.layers id value }

/-- `applyFilterToLayer` (App.jsx lines 309-343) at the state level: guard on
an existing `image` layer, rewrite its `src` to the re-encoded canvas output
(the encoded data URL is exogenous here — the per-pixel transforms are
modelled below on pixel buffers), then push history.  `pushHistory` again
reads the render-time state `s`. -/
def applyFilterToLayer (s : AppState) (layerId : Nat) (newSrc : String) : AppState :=
  match s.layers.find? (fun l => l.id = layerId) with
  | none => s
  | some l =>
    if l.type ≠ "image" then s
    else
      pushHistoryFrom s
        { s with layers := (s.layers.map
            (fun p => if p.id = layerId then { p with src := newSrc } else p)) }

/-- The initial component state: the default background layer (App.jsx
lines 171-187), before the mount effect runs. -/
def initState : AppState :=
  { tool := "brush", brushColor := "#000000", brushSize := 6, brushOpacity := 1,
    layers := [{ id := 0, name := "Background", type := "raster", isBase := true,
                 visible := true, opacity := 1, blend := "normal", content := [],
                 src := "" }],
    activeLayerId := 0, lines := [], history := [], historyIndex := -1,
    isDrawing := false, nextId := 1 }

/-- The state after the mount `useEffect` pushed the initial snapshot
(App.jsx lines 189-192). -/
def mountedState : AppState := pushHistory initState

/-- One RGBA pixel of the `Uint8ClampedArray` that
`applyFilterToLayer` iterates over (App.jsx lines 320-338).  Reads from the
array always yield integers in `[0, 255]`. -/
structure Pixel where
  r : Nat
  g : Nat
  b : Nat
  a : Nat
deriving DecidableEq

/-- A write `data[i] = z` into a `Uint8ClampedArray` for an integral value
(ECMAScript `ToUint8Clamp`): clamp to `[0, 255]`; no rounding is involved
for integers. -/
def u8StoreInt (z : Int) : Nat :=
  if z ≤ 0 then 0 else if 255 ≤ z then 255 else z.toNat

/-- A write `data[i] = num / den` into a `Uint8ClampedArray` for an exact
non-negative fraction (`den > 0`): clamp to `[0, 255]`, then round to the
nearest integer, ties to even (ECMAScript `ToUint8Clamp`).  The source
evaluates the filter formulas in IEEE doubles; the exact fraction equals the
real value of the source expression, and the two roundings agree except at
exact-half ties, none of which the claims touch. -/
def u8StoreFrac (num den : Nat) : Nat :=
  if 255 * den ≤ num then 255
  else
    let f := num / den
    let r2 := 2 * (num % den)
    if r2 < den then f
    else if den < r2 then f + 1
    else if f % 2 = 0 then f else f + 1

/-- The `grayscale` branch of the filter loop (App.jsx lines 326-328):
`v = 0.2126 r + 0.7152 g + 0.0722 b` (represented exactly as
`(2126 r + 7152 g + 722 b) / 10000`), written to all three channels; the
alpha byte `data[i + 3]` is never touched. -/
def grayscalePixel (p : Pixel) : Pixel :=
  let v : Nat := 2126 * p.r + 7152 * p.g + 722 * p.b
  { r := u8StoreFrac v 10000, g := u8StoreFrac v 10000,
    b := u8StoreFrac v 10000, a := p.a }

/-- The `invert` branch of the filter loop (App.jsx lines 333-337):
`255 − channel` on R, G, B; alpha untouched. -/
def invertPixel (p : Pixel) : Pixel :=
  { r := u8StoreInt (255 - (p.r : Int)), g := u8StoreInt (255 - (p.g : Int)),
    b := u8StoreInt (255 - (p.b : Int)), a := p.a }

/-- The whole-buffer filter loop for `invert`. -/
def invertBuffer (buf : List Pixel) : List Pixel := buf.map invertPixel

/-- Every channel read from a `Uint8ClampedArray` is in `[0, 255]`. -/
def WFBuffer (buf : List Pixel) : Prop :=
  ∀ p ∈ buf, p.r ≤ 255 ∧ p.g ≤ 255 ∧ p.b ≤ 255

instance : DecidablePred WFBuffer := fun buf => by
  unfold WFBuffer; infer_instance

/-- Modelled from the spec: `mergeUp(id)` is referenced by both LayersPanel
variants (part_000 line 95, part_001 line 104) but implemented nowhere in
the repository sources.  Per §4.1 of the spec it combines the layer with its
immediate neighbor above (next index; index 0 is bottommost) into a single
layer occupying the lower of the two positions, concatenating stroke
sequences with the lower layer's strokes first, and is a refused no-op when
no neighbor above exists. -/
def mergeUp : List Layer → Nat → List Layer
  | [], _ => []
  | [l], _ => [l]
  | a :: b :: rest, id =>
    if a.id = id then { a with content := a.content ++ b.content } :: rest
    else a :: mergeUp (b :: rest) id

/-- Modelled from the spec: `mergeDown(id)`, the mirror of `mergeUp` — merge
the layer into its immediate neighbor below, the result occupying the lower
position with the lower layer's strokes first; refused no-op for the
bottommost layer. -/
def mergeDown : List Layer → Nat → List Layer
  | [], _ => []
  | [l], _ => [l]
  | a :: b :: rest, id =>
    if b.id = id then { a with content := a.content ++ b.content } :: rest
    else a :: mergeDown (b :: rest) id

/-- The committed-edit alphabet of the editor: the event handlers of
`App.jsx` that can end in a `pushHistory` call.  A `gesture` is
pointer-down, the list of pointer-moves, then pointer-up. -/
inductive Edit where
  | addL (name : String)
  | deleteL (id : Nat)
  | reorderL (id : Nat) (direction : Int)
  | gesture (down : ℚ × ℚ) (moves : List (ℚ × ℚ))
  | filterL (id : Nat) (newSrc : String)
deriving DecidableEq

/-- Run one edit's handler(s) on the state. -/
def applyEdit (s : AppState) : Edit → AppState
  | .addL name => addLayer s name
  | .deleteL id => deleteLayer s id
  | .reorderL id dir => reorderLayer s id dir
  | .gesture down moves =>
      handleMouseUp (moves.foldl handleMouseMove (handleMouseDown s down))
  | .filterL id newSrc => applyFilterToLayer s id newSrc

/-- Whether the edit's handler reaches its `pushHistory()` call in state
`s` (i.e. the edit is committed rather than refused/no-op). -/
def editCommits (s : AppState) : Edit → Bool
  | .addL _ => true
  | .deleteL _ => decide (s.layers.length ≠ 1)
  | .reorderL id _ => (s.layers.findIdx? (fun l => l.id = id)).isSome
  | .gesture _ _ => decide (s.tool = "brush") || decide (s.tool = "eraser")
  | .filterL id _ =>
      match s.layers.find? (fun l => l.id = id) with
      | some l => decide (l.type = "image")
      | none => false

/-- Run a list of edits in order. -/
def runEdits (s : AppState) (es : List Edit) : AppState := es.foldl applyEdit s

/-- Every edit of the list commits in the state where it runs. -/
def allCommit : AppState → List Edit → Bool
  | _, [] => true
  | s, e :: es => editCommits s e && allCommit (applyEdit s e) es

/-- The value `pushHistory` leaves in `history` when invoked from a handler
that started at `s`: the snapshots up to the pointer, then one new snapshot
of the render-time `layers`. -/
def snapAfter (s : AppState) : List (List Layer) :=
  s.history.take (s.historyIndex + 1).toNat ++ [s.layers]

/-- The idle state of the C4 stroke-capture scenario: freshly mounted editor
with tool `brush`, color `#ff0000`, size 6. -/
def c4Start : AppState := { mountedState with brushColor := "#ff0000" }

/-- The state after pointer-down at (10,10), pointer-move to (20,10),
pointer-up. -/
def c4End : AppState :=
  handleMouseUp (handleMouseMove (handleMouseDown c4Start (10, 10)) (20, 10))

/-- The base layer of the C5 witness state. -/
def wBaseLayer : Layer :=
  { id := 0, name := "Background", type := "raster", isBase := true,
    visible := true, opacity := 1, blend := "normal", content := [], src := "" }

/-- The image layer of the C5 witness state. -/
def wImgLayer : Layer :=
  { id := 1, name := "pic.png", type := "image", isBase := false,
    visible := true, opacity := 1, blend := "normal", content := [],
    src := "dataURL0" }

/-- The concrete state used to witness C5: a mounted editor carrying the
base raster layer and one image layer. -/
def wState : AppState :=
  { tool := "brush", brushColor := "#000000", brushSize := 6, brushOpacity := 1,
    layers := [wBaseLayer, wImgLayer], activeLayerId := 1, lines := [],
    history := [[wBaseLayer]], historyIndex := 0, isDrawing := false,
    nextId := 2 }

/-- Strokes and layers for the C7 witness. -/
def mS1 : Stroke := ⟨100, [1, 2], "#000000", 3, 1, "brush"⟩

def mS2 : Stroke := ⟨101, [4, 5], "#000000", 3, 1, "brush"⟩

def mA : Layer := { defaultLayer with id := 10, content := [mS1] }

def mB : Layer := { defaultLayer with id := 11, content := [mS2] }

lemma lookup_map_objSet (k : Nat) (v : List Stroke) :
    ∀ m : List (Nat × List Stroke), m.any (fun p => p.1 = k) = true →
      (m.map (fun p => if p.1 = k then (k, v) else p)).lookup k = some v := by
  intro m
  induction m with
  | nil => intro h; simp at h
  | cons q t ih =>
    obtain ⟨qk, qv⟩ := q
    intro h
    by_cases hq : qk = k
    · subst hq
      simp [List.lookup_cons]
    · have ht : t.any (fun p => p.1 = k) = true := by
        simp only [List.any_cons, Bool.or_eq_true, decide_eq_true_eq] at h
        exact h.resolve_left hq
      have hne : (k == qk) = false := beq_eq_false_iff_ne.mpr (Ne.symm hq)
      simp only [List.map_cons, if_neg hq, List.lookup_cons, hne]
      exact ih ht

lemma lookup_append_objSet (k : Nat) (v : List Stroke) :
    ∀ m : List (Nat × List Stroke), m.any (fun p => p.1 = k) = false →
      (m ++ [(k, v)]).lookup k = some v := by
  intro m
  induction m with
  | nil => simp [List.lookup_cons]
  | cons q t ih =>
    obtain ⟨qk, qv⟩ := q
    intro h
    simp only [List.any_cons, Bool.or_eq_false_iff, decide_eq_false_iff_not] at h
    have hne : (k == qk) = false := beq_eq_false_iff_ne.mpr (Ne.symm h.1)
    simp only [List.cons_append, List.lookup_cons, hne]
    exact ih h.2

/-- `{ ...prev, [k]: v }[k]` reads back `v`. -/
lemma lookup_objSet (m : List (Nat × List Stroke)) (k : Nat) (v : List Stroke) :
    (objSet m k v).lookup k = some v := by
  unfold objSet
  split
  · exact lookup_map_objSet k v m (by assumption)
  · refine lookup_append_objSet k v m ?_
    rename_i h
    exact Bool.not_eq_true _ ▸ Bool.of_not_eq_true h

/-- C2: on the concrete session "mount, addLayer" the claimed round-trip
fails: `undo()` then `redo()` does not restore the pre-undo Layer Stack,
because `addLayer`'s `pushHistory()` stringified the render-time `layers`
(before the `setLayers` update commits), so the snapshot at `historyIndex`
is not the current stack. -/
theorem undo_redo_roundtrip_fails :
    (redo (undo (addLayer mountedState "Layer"))).layers ≠
      (addLayer mountedState "Layer").layers ∧
    (undo (addLayer mountedState "Layer")).historyIndex = 0 ∧
    (redo (undo (addLayer mountedState "Layer"))).historyIndex = 1 := by decide

/-- C3 counterexample: on a two-layer stack whose first layer is the base
layer, `deleteLayer` of the base layer's id removes it even though another
layer exists — the function has no `isBase` guard (only the panel's delete
button is disabled for the base layer). -/
theorem deleteLayer_removes_base_cex :
    (addLayer mountedState "Layer").layers.length = 2 ∧
    (addLayer mountedState "Layer").layers.any (fun l => l.isBase) = true ∧
    (deleteLayer (addLayer mountedState "Layer") 0).layers.length = 1 ∧
    (deleteLayer (addLayer mountedState "Layer") 0).layers.any
      (fun l => l.isBase) = false := by decide

/-- C4 counterexample: after the full brush gesture the active layer's
`content` gained nothing (it is still `[]`) and the layers array is
unchanged — the stroke lives only in the ephemeral `lines` map, so the
claim that the layer's content gains the stroke is false (as is
`mode = paint`: the source stores the tool name `"brush"`). -/
theorem stroke_not_in_layer_content_cex :
    (c4End.layers.find? (fun l => l.id = c4End.activeLayerId)).map Layer.content =
      some [] ∧
    c4End.layers = c4Start.layers := by decide

/-- C4 (amended): the gesture leaves `layers` unchanged, stores exactly one
stroke `{points = [10,10,20,10], color = #ff0000, size = 6, mode = "brush"}`
in the ephemeral `lines` map under the active layer id, and pushes exactly
one new history snapshot (of the unchanged layers). -/
theorem stroke_capture_scenario :
    c4End.layers = c4Start.layers ∧
    linesOf c4End c4Start.activeLayerId =
      [{ id := 1, points := [10, 10, 20, 10], color := "#ff0000", size := 6,
         opacity := 1, mode := "brush" }] ∧
    c4End.history = c4Start.history ++ [c4Start.layers] ∧
    c4End.historyIndex = c4Start.historyIndex + 1 := by decide

lemma move_frame (s : AppState) (pos : ℚ × ℚ) :
    (handleMouseMove s pos).layers = s.layers ∧
    (handleMouseMove s pos).history = s.history ∧
    (handleMouseMove s pos).historyIndex = s.historyIndex ∧
    (handleMouseMove s pos).tool = s.tool := by
  unfold handleMouseMove
  split
  · exact ⟨rfl, rfl, rfl, rfl⟩
  · split
    · exact ⟨rfl, rfl, rfl, rfl⟩
    · cases hls : (linesOf s s.activeLayerId).getLast? with
      | none => simp [hls]
      | some lastStroke => simp [hls]

lemma down_frame (s : AppState) (pos : ℚ × ℚ) :
    (handleMouseDown s pos).layers = s.layers ∧
    (handleMouseDown s pos).history = s.history ∧
    (handleMouseDown s pos).historyIndex = s.historyIndex ∧
    (handleMouseDown s pos).tool = s.tool := by
  unfold handleMouseDown
  split
  · exact ⟨rfl, rfl, rfl, rfl⟩
  · exact ⟨rfl, rfl, rfl, rfl⟩

lemma foldl_move_frame (ms : List (ℚ × ℚ)) : ∀ s : AppState,
    (ms.foldl handleMouseMove s).layers = s.layers ∧
    (ms.foldl handleMouseMove s).history = s.history ∧
    (ms.foldl handleMouseMove s).historyIndex = s.historyIndex ∧
    (ms.foldl handleMouseMove s).tool = s.tool := by
  induction ms with
  | nil => exact fun s => ⟨rfl, rfl, rfl, rfl⟩
  | cons m t ih =>
    intro s
    obtain ⟨h1, h2, h3, h4⟩ := ih (handleMouseMove s m)
    obtain ⟨g1, g2, g3, g4⟩ := move_frame s m
    exact ⟨h1.trans g1, h2.trans g2, h3.trans g3, h4.trans g4⟩

/-- C10: a brush/eraser pointer-down or pointer-move never touches the
`layers` array or the history — the new stroke, and every point appended to
it, lands only in the ephemeral `lines` map under the active layer id — and
`pushHistory` serializes exactly the `layers` array, so stroke data can
never reach a history snapshot. -/
theorem drawing_preserves_layers (s : AppState) (pos : ℚ × ℚ)
    (htool : s.tool = "brush" ∨ s.tool = "eraser") :
    (handleMouseDown s pos).layers = s.layers ∧
    (handleMouseDown s pos).history = s.history ∧
    (handleMouseDown s pos).historyIndex = s.historyIndex ∧
    (handleMouseMove s pos).layers = s.layers ∧
    (handleMouseMove s pos).history = s.history ∧
    (handleMouseMove s pos).historyIndex = s.historyIndex ∧
    (pushHistory s).history =
      s.history.take (s.historyIndex + 1).toNat ++ [s.layers] ∧
    linesOf (handleMouseDown s pos) s.activeLayerId =
      linesOf s s.activeLayerId ++
        [{ id := s.nextId, points := [pos.1, pos.2], color := s.brushColor,
           size := s.brushSize, opacity := s.brushOpacity, mode := s.tool }] := by
  have hguard : ¬ (s.tool ≠ "brush" ∧ s.tool ≠ "eraser") := by
    rcases htool with h | h <;> simp [h]
  have hdown : handleMouseDown s pos =
      { s with isDrawing := true, nextId := s.nextId + 1,
               lines := (objSet s.lines s.activeLayerId (linesOf s s.activeLayerId ++ [{ id := s.nextId, points := [pos.1, pos.2], color := s.brushColor, size := s.brushSize, opacity := s.brushOpacity, mode := s.tool }])) } := by
    unfold handleMouseDown
    rw [if_neg hguard]
  obtain ⟨m1, m2, m3, _⟩ := move_frame s pos
  refine ⟨by rw [hdown], by rw [hdown], by rw [hdown], m1, m2, m3, rfl, ?_⟩
  rw [hdown]
  unfold linesOf
  rw [lookup_objSet]
  rfl

/-- Witness for C10 at the mounted editor state (tool `brush`) and pointer
position (3, 4). -/
theorem drawing_preserves_layers_witness :
    (handleMouseDown mountedState (3, 4)).layers = mountedState.layers ∧
    (handleMouseDown mountedState (3, 4)).history = mountedState.history ∧
    (handleMouseDown mountedState (3, 4)).historyIndex = mountedState.historyIndex ∧
    (handleMouseMove mountedState (3, 4)).layers = mountedState.layers ∧
    (handleMouseMove mountedState (3, 4)).history = mountedState.history ∧
    (handleMouseMove mountedState (3, 4)).historyIndex = mountedState.historyIndex ∧
    (pushHistory mountedState).history =
      mountedState.history.take (mountedState.historyIndex + 1).toNat ++
        [mountedState.layers] ∧
    linesOf (handleMouseDown mountedState (3, 4)) mountedState.activeLayerId =
      linesOf mountedState mountedState.activeLayerId ++
        [{ id := mountedState.nextId, points := [3, 4],
           color := mountedState.brushColor, size := mountedState.brushSize,
           opacity := mountedState.brushOpacity, mode := mountedState.tool }] :=
  drawing_preserves_layers mountedState (3, 4) (Or.inl rfl)

lemma filter_ne_length (id : Nat) : ∀ l : List Layer, (l.map Layer.id).Nodup →
    l.length - 1 ≤ (l.filter (fun x => x.id ≠ id)).length := by
  intro l
  induction l with
  | nil => simp
  | cons a t ih =>
    intro h
    simp only [List.map_cons, List.nodup_cons] at h
    obtain ⟨ha, ht⟩ := h
    by_cases hx : a.id = id
    · have hall : t.filter (fun x => x.id ≠ id) = t := by
        apply List.filter_eq_self.mpr
        intro x hxmem
        have hne : x.id ≠ id := by
          intro hc
          exact ha (hx ▸ hc ▸ List.mem_map_of_mem Layer.id hxmem)
        exact decide_eq_true hne
      rw [List.filter_cons, if_neg (by simp [hx]), hall]
      simp
    · rw [List.filter_cons, if_pos (by simp [hx])]
      have := ih ht
      simp only [List.length_cons]
      omega

lemma deleteLayer_layers (s : AppState) (id : Nat) (hlen : ¬ s.layers.length = 1) :
    (deleteLayer s id).layers = s.layers.filter (fun l => l.id ≠ id) := by
  unfold deleteLayer
  rw [if_neg hlen]
  split <;> rfl

/-- C3 (amended): `deleteLayer` never reduces the stack below one layer (for
stacks with distinct layer ids), and on a stack with exactly one layer it is
a complete no-op — same layers, no history snapshot, whole state unchanged.
The `isBase` layer, however, is protected only by the panel's disabled
delete button, not by `deleteLayer` itself. -/
theorem deleteLayer_min_one (s : AppState) (id : Nat)
    (hnd : (s.layers.map Layer.id).Nodup) (h1 : 1 ≤ s.layers.length) :
    1 ≤ (deleteLayer s id).layers.length ∧
    (s.layers.length = 1 → deleteLayer s id = s) := by
  by_cases hlen : s.layers.length = 1
  · unfold deleteLayer
    rw [if_pos hlen]
    exact ⟨h1, fun _ => rfl⟩
  · constructor
    · rw [deleteLayer_layers s id hlen]
      have hkey := filter_ne_length id s.layers hnd
      omega
    · intro hc
      exact absurd hc hlen

/-- Witness for C3 at the mounted one-layer state: deleting any id is a
no-op that keeps the single layer and pushes nothing. -/
theorem deleteLayer_min_one_witness :
    1 ≤ (deleteLayer mountedState 5).layers.length ∧
    deleteLayer mountedState 5 = mountedState := by
  have h := deleteLayer_min_one mountedState 5 (by decide) (by decide)
  exact ⟨h.1, h.2 (by decide)⟩

/-- C5 counterexample: toggling a layer's visibility is a committed mutation
of the Layer Stack, yet it pushes no history snapshot — the panel's
`toggleVisibility` is a bare `setLayers` call. -/
theorem visibility_no_snapshot_cex :
    (toggleVisibilityApp mountedState 0).layers ≠ mountedState.layers ∧
    (toggleVisibilityApp mountedState 0).history = mountedState.history ∧
    (toggleVisibilityApp mountedState 0).historyIndex =
      mountedState.historyIndex := by decide

/-- C5 (amended): stroke completion, layer add, non-refused delete, reorder
of an existing id, and filter application on an image layer are each followed
by exactly one new history snapshot — but the snapshot records the
render-time (pre-mutation) layers, not the resulting state; visibility,
opacity and blend changes push no snapshot at all; layer merge is not
implemented in the sources. -/
theorem snapshot_discipline (s : AppState) :
    (∀ name, (addLayer s name).history = snapAfter s ∧
      (addLayer s name).historyIndex = ((snapAfter s).length : Int) - 1) ∧
    (∀ id, ¬ s.layers.length = 1 → (deleteLayer s id).history = snapAfter s) ∧
    (∀ id dir i, s.layers.findIdx? (fun l => l.id = id) = some i →
      (reorderLayer s id dir).history = snapAfter s) ∧
    ((s.tool = "brush" ∨ s.tool = "eraser") →
      (handleMouseUp s).history = snapAfter s) ∧
    (∀ id newSrc l, s.layers.find? (fun x => x.id = id) = some l →
      l.type = "image" →
      (applyFilterToLayer s id newSrc).history = snapAfter s) ∧
    (∀ id, (toggleVisibilityApp s id).history = s.history ∧
      (toggleVisibilityApp s id).historyIndex = s.historyIndex) ∧
    (∀ id v, (changeOpacityApp s id v).history = s.history ∧
      (changeOpacityApp s id v).historyIndex = s.historyIndex) ∧
    (∀ id v, (changeBlendModeApp s id v).history = s.history ∧
      (changeBlendModeApp s id v).historyIndex = s.historyIndex) := by
  refine ⟨fun name => ⟨rfl, rfl⟩, ?_, ?_, ?_, ?_,
    fun id => ⟨rfl, rfl⟩, fun id v => ⟨rfl, rfl⟩, fun id v => ⟨rfl, rfl⟩⟩
  · intro id hlen
    unfold deleteLayer
    rw [if_neg hlen]
    split <;> rfl
  · intro id dir i hfind
    simp only [reorderLayer, hfind]
    rfl
  · intro htool
    have hguard : ¬ (s.tool ≠ "brush" ∧ s.tool ≠ "eraser") := by
      rcases htool with h | h <;> simp [h]
    unfold handleMouseUp
    rw [if_neg hguard]
    rfl
  · intro id newSrc l hfind htype
    simp only [applyFilterToLayer, hfind]
    rw [if_neg (not_not_intro htype)]
    rfl

/-- Witness for C5 at `wState`: each committed operation pushes exactly one
snapshot; the panel mutations push none. -/
theorem snapshot_discipline_witness :
    ((addLayer wState "L").history = snapAfter wState ∧
      (addLayer wState "L").historyIndex = ((snapAfter wState).length : Int) - 1) ∧
    (deleteLayer wState 1).history = snapAfter wState ∧
    (reorderLayer wState 0 1).history = snapAfter wState ∧
    (handleMouseUp wState).history = snapAfter wState ∧
    (applyFilterToLayer wState 1 "dataURL1").history = snapAfter wState ∧
    (toggleVisibilityApp wState 0).history = wState.history ∧
    (changeOpacityApp wState 0 0).history = wState.history ∧
    (changeBlendModeApp wState 0 "screen").history = wState.history := by
  obtain ⟨h1, h2, h3, h4, h5, h6, h7, h8⟩ := snapshot_discipline wState
  exact ⟨h1 "L", h2 1 (by decide), h3 0 1 0 (by decide), h4 (Or.inl rfl),
    h5 1 "dataURL1" wImgLayer (by decide) rfl, (h6 0).1, (h7 0 0).1,
    (h8 0 "screen").1⟩

/-- C6 counterexample: `changeOpacity` with input 2 stores opacity 2, which
is outside `[0,1]` — the function performs no clamping. -/
theorem opacity_not_clamped_cex :
    (changeOpacity [defaultLayer] 0 2).map Layer.opacity = [2] ∧
    ¬ ((2 : ℚ) ≤ 1) := by decide

/-- C6 (amended): `changeOpacity` stores the given value verbatim on the
addressed layer and leaves every other layer's opacity unchanged; no
clamping of any kind happens in the function (the `[0,1]` range in the UI
comes solely from the slider's bounds). -/
theorem changeOpacity_verbatim (layers : List Layer) (id : Nat) (v : ℚ) :
    (changeOpacity layers id v).map (fun l => (l.id, l.opacity)) =
      layers.map (fun l => (l.id, if l.id = id then v else l.opacity)) := by
  unfold changeOpacity
  induction layers with
  | nil => rfl
  | cons a t ih =>
    by_cases h : a.id = id <;> simp [h, ih]

lemma u8StoreInt_of_sub (n : Nat) (h : n ≤ 255) :
    u8StoreInt (255 - (n : Int)) = 255 - n := by
  unfold u8StoreInt
  split
  · omega
  · split
    · omega
    · omega

lemma invertPixel_eq (p : Pixel) (h1 : p.r ≤ 255) (h2 : p.g ≤ 255)
    (h3 : p.b ≤ 255) :
    invertPixel p = ⟨255 - p.r, 255 - p.g, 255 - p.b, p.a⟩ := by
  unfold invertPixel
  rw [u8StoreInt_of_sub p.r h1, u8StoreInt_of_sub p.g h2, u8StoreInt_of_sub p.b h3]

lemma invertPixel_twice (p : Pixel) (h1 : p.r ≤ 255) (h2 : p.g ≤ 255)
    (h3 : p.b ≤ 255) : invertPixel (invertPixel p) = p := by
  rw [invertPixel_eq p h1 h2 h3,
    invertPixel_eq _ (Nat.sub_le 255 p.r) (Nat.sub_le 255 p.g) (Nat.sub_le 255 p.b)]
  cases p with
  | mk r g b a =>
    dsimp only at h1 h2 h3 ⊢
    rw [Pixel.mk.injEq]
    refine ⟨by omega, by omega, by omega, rfl⟩

/-- C8: applying the invert filter loop twice restores the pixel buffer
exactly — `255 − (255 − c) = c` on each color channel of every (in-range)
pixel, and the alpha channel is never written. -/
theorem invert_involution (buf : List Pixel) (h : WFBuffer buf) :
    invertBuffer (invertBuffer buf) = buf ∧
    (invertBuffer buf).map Pixel.a = buf.map Pixel.a := by
  constructor
  · unfold invertBuffer
    rw [List.map_map]
    induction buf with
    | nil => rfl
    | cons p t ih =>
      obtain ⟨hp, ht⟩ : _ ∧ WFBuffer t := by
        refine ⟨h p (by simp), fun q hq => h q (by simp [hq])⟩
      simp only [List.map_cons, Function.comp_apply]
      rw [invertPixel_twice p hp.1 hp.2.1 hp.2.2, ih ht]
  · unfold invertBuffer
    rw [List.map_map]
    induction buf with
    | nil => rfl
    | cons p t ih =>
      simp only [List.map_cons, Function.comp_apply]
      rw [ih (fun q hq => h q (by simp [hq]))]
      rfl

/-- Witness for C8 at a concrete two-pixel buffer. -/
theorem invert_involution_witness :
    invertBuffer (invertBuffer [⟨10, 20, 30, 40⟩, ⟨255, 0, 7, 255⟩]) =
      [⟨10, 20, 30, 40⟩, ⟨255, 0, 7, 255⟩] ∧
    (invertBuffer [⟨10, 20, 30, 40⟩, ⟨255, 0, 7, 255⟩]).map Pixel.a =
      ([⟨10, 20, 30, 40⟩, ⟨255, 0, 7, 255⟩] : List Pixel).map Pixel.a :=
  invert_involution [⟨10, 20, 30, 40⟩, ⟨255, 0, 7, 255⟩] (by decide)

lemma mergeUp_skip (id : Nat) : ∀ pre rest : List Layer,
    (∀ l ∈ pre, l.id ≠ id) →
    mergeUp (pre ++ rest) id = pre ++ mergeUp rest id := by
  intro pre
  induction pre with
  | nil => intro rest h; rfl
  | cons p t ih =>
    intro rest h
    have hp : p.id ≠ id := h p (by simp)
    have ht : ∀ l ∈ t, l.id ≠ id := fun l hl => h l (by simp [hl])
    cases htr : t ++ rest with
    | nil =>
      obtain ⟨ht0, hr0⟩ := List.append_eq_nil.mp htr
      subst ht0
      subst hr0
      rfl
    | cons q u =>
      rw [List.cons_append, htr]
      simp only [mergeUp, if_neg hp]
      rw [← htr, ih rest ht]
      rfl

lemma mergeDown_skip (id : Nat) : ∀ pre rest : List Layer,
    (∀ l ∈ pre, l.id ≠ id) →
    (∀ a, rest.head? = some a → a.id ≠ id) →
    mergeDown (pre ++ rest) id = pre ++ mergeDown rest id := by
  intro pre
  induction pre with
  | nil => intro rest h hh; rfl
  | cons p t ih =>
    intro rest h hh
    have ht : ∀ l ∈ t, l.id ≠ id := fun l hl => h l (by simp [hl])
    cases htr : t ++ rest with
    | nil =>
      obtain ⟨ht0, hr0⟩ := List.append_eq_nil.mp htr
      subst ht0
      subst hr0
      rfl
    | cons q u =>
      have hq : q.id ≠ id := by
        cases t with
        | nil =>
          refine hh q ?_
          simp only [List.nil_append] at htr
          rw [htr]
          rfl
        | cons p2 t2 =>
          have : p2 = q := by
            simp only [List.cons_append, List.cons.injEq] at htr
            exact htr.1
          exact this ▸ ht p2 (by simp)
      rw [List.cons_append, htr]
      simp only [mergeDown, if_neg hq]
      rw [← htr, ih rest ht hh]
      rfl

/-- C7 (spec-modelled merge): with A directly below B, A holding strokes
`[s1]` and B holding `[s2]`, both `mergeUp(A.id)` and `mergeDown(B.id)`
replace the pair by a single layer at A's (the lower) position whose stroke
sequence is `[s1, s2]` — the lower layer's strokes first. -/
theorem merge_stroke_order (pre post : List Layer) (A B : Layer)
    (s1 s2 : Stroke) (hA : A.content = [s1]) (hB : B.content = [s2])
    (hpreA : ∀ l ∈ pre, l.id ≠ A.id) (hpreB : ∀ l ∈ pre, l.id ≠ B.id)
    (hAB : A.id ≠ B.id) :
    mergeUp (pre ++ A :: B :: post) A.id =
      pre ++ { A with content := [s1, s2] } :: post ∧
    mergeDown (pre ++ A :: B :: post) B.id =
      pre ++ { A with content := [s1, s2] } :: post := by
  constructor
  · rw [mergeUp_skip A.id pre (A :: B :: post) hpreA]
    have hstep : mergeUp (A :: B :: post) A.id =
        { A with content := A.content ++ B.content } :: post := by
      simp only [mergeUp]
      simp
    rw [hstep, hA, hB, List.singleton_append]
  · rw [mergeDown_skip B.id pre (A :: B :: post) hpreB
      (fun a ha => by injection ha with hhead; exact hhead ▸ hAB)]
    have hstep : mergeDown (A :: B :: post) B.id =
        { A with content := A.content ++ B.content } :: post := by
      simp only [mergeDown]
      simp
    rw [hstep, hA, hB, List.singleton_append]

/-- Witness for C7 on the concrete two-layer stack `[mA, mB]`. -/
theorem merge_stroke_order_witness :
    mergeUp [mA, mB] 10 = [{ mA with content := [mS1, mS2] }] ∧
    mergeDown [mA, mB] 11 = [{ mA with content := [mS1, mS2] }] :=
  merge_stroke_order [] [] mA mB mS1 mS2 rfl rfl
    (fun l hl => absurd hl (List.not_mem_nil l))
    (fun l hl => absurd hl (List.not_mem_nil l)) (by decide)

/-- C9 counterexample: the grayscale filter maps the pixel
(R=100, G=150, B=200) to channel value 143 (the exact luminance is
`v = 142.98`), not ≈135 as the claim computes. -/
theorem grayscale_value_cex :
    grayscalePixel ⟨100, 150, 200, 255⟩ = ⟨143, 143, 143, 255⟩ ∧
    (143 : Nat) ≠ 135 := by decide

/-- C9 (amended): for every pixel the grayscale filter writes the same
rounded luminance `v = 0.2126 R + 0.7152 G + 0.0722 B` to all three color
channels and leaves alpha unchanged; for (R=100, G=150, B=200) the value is
`v = 142.98`, stored as 143. -/
theorem grayscale_channels (p : Pixel) :
    (grayscalePixel p).r = u8StoreFrac (2126 * p.r + 7152 * p.g + 722 * p.b) 10000 ∧
    (grayscalePixel p).g = (grayscalePixel p).r ∧
    (grayscalePixel p).b = (grayscalePixel p).r ∧
    (grayscalePixel p).a = p.a ∧
    grayscalePixel ⟨100, 150, 200, 255⟩ = ⟨143, 143, 143, 255⟩ :=
  ⟨rfl, rfl, rfl, rfl, by decide⟩

lemma commit_push (s : AppState) (e : Edit) (h : editCommits s e = true) :
    (applyEdit s e).history = snapAfter s ∧
    (applyEdit s e).historyIndex = ((snapAfter s).length : Int) - 1 := by
  cases e with
  | addL name => exact ⟨rfl, rfl⟩
  | deleteL id =>
    have hlen : ¬ s.layers.length = 1 := of_decide_eq_true h
    show (deleteLayer s id).history = _ ∧ (deleteLayer s id).historyIndex = _
    unfold deleteLayer
    rw [if_neg hlen]
    split <;> exact ⟨rfl, rfl⟩
  | reorderL id dir =>
    obtain ⟨i, hi⟩ := Option.isSome_iff_exists.mp h
    show (reorderLayer s id dir).history = _ ∧ (reorderLayer s id dir).historyIndex = _
    simp only [reorderLayer, hi]
    exact ⟨rfl, rfl⟩
  | gesture down moves =>
    have htool : s.tool = "brush" ∨ s.tool = "eraser" := by
      simp only [editCommits, Bool.or_eq_true, decide_eq_true_eq] at h
      exact h
    obtain ⟨d1, d2, d3, d4⟩ := down_frame s down
    obtain ⟨f1, f2, f3, f4⟩ := foldl_move_frame moves (handleMouseDown s down)
    have htool2 : (moves.foldl handleMouseMove (handleMouseDown s down)).tool = s.tool :=
      f4.trans d4
    have hguard : ¬ ((moves.foldl handleMouseMove (handleMouseDown s down)).tool ≠ "brush" ∧
        (moves.foldl handleMouseMove (handleMouseDown s down)).tool ≠ "eraser") := by
      rw [htool2]
      rcases htool with h | h <;> simp [h]
    show (handleMouseUp (moves.foldl handleMouseMove (handleMouseDown s down))).history = _ ∧
      (handleMouseUp (moves.foldl handleMouseMove (handleMouseDown s down))).historyIndex = _
    unfold handleMouseUp
    rw [if_neg hguard]
    constructor
    · show (moves.foldl handleMouseMove (handleMouseDown s down)).history.take
          ((moves.foldl handleMouseMove (handleMouseDown s down)).historyIndex + 1).toNat ++
          [(moves.foldl handleMouseMove (handleMouseDown s down)).layers] = snapAfter s
      rw [f1.trans d1, f2.trans d2, f3.trans d3]
      rfl
    · show (((moves.foldl handleMouseMove (handleMouseDown s down)).history.take
          ((moves.foldl handleMouseMove (handleMouseDown s down)).historyIndex + 1).toNat ++
          [(moves.foldl handleMouseMove (handleMouseDown s down)).layers]).length : Int) - 1 =
          ((snapAfter s).length : Int) - 1
      rw [f1.trans d1, f2.trans d2, f3.trans d3]
      rfl
  | filterL id newSrc =>
    cases hfind : s.layers.find? (fun l => l.id = id) with
    | none =>
      rw [editCommits, hfind] at h
      exact absurd h (by simp)
    | some l =>
      have htype : l.type = "image" := by
        rw [editCommits, hfind] at h
        exact of_decide_eq_true h
      show (applyFilterToLayer s id newSrc).history = _ ∧
        (applyFilterToLayer s id newSrc).historyIndex = _
      simp only [applyFilterToLayer, hfind]
      rw [if_neg (not_not_intro htype)]
      exact ⟨rfl, rfl⟩

lemma run_length (es : List Edit) : ∀ s : AppState, allCommit s es = true →
    s.historyIndex = (s.history.length : Int) - 1 →
    (runEdits s es).history.length = s.history.length + es.length ∧
    (runEdits s es).historyIndex = ((runEdits s es).history.length : Int) - 1 := by
  induction es with
  | nil =>
    intro s h hinv
    exact ⟨(Nat.add_zero _).symm, hinv⟩
  | cons e t ih =>
    intro s h hinv
    simp only [allCommit, Bool.and_eq_true] at h
    obtain ⟨he, ht⟩ := h
    obtain ⟨hh, hi⟩ := commit_push s e he
    have htn : (s.historyIndex + 1).toNat = s.history.length := by omega
    have hlen1 : (applyEdit s e).history.length = s.history.length + 1 := by
      rw [hh]
      unfold snapAfter
      rw [List.length_append, List.length_take, htn, Nat.min_self]
      rfl
    have hinv2 : (applyEdit s e).historyIndex =
        ((applyEdit s e).history.length : Int) - 1 := by
      rw [hi, hh]
    have hmain := ih (applyEdit s e) ht hinv2
    refine ⟨?_, hmain.2⟩
    show (runEdits (applyEdit s e) t).history.length = s.history.length + (e :: t).length
    rw [hmain.1, hlen1]
    simp only [List.length_cons]
    omega

/-- C1: (a) a session that starts at the mounted initial snapshot and
performs N committed edits (from the editor's committed-edit alphabet) ends
with `history.length = N + 1` (the initial snapshot included) and
`historyIndex = N`; (b) any committed edit from any state — in particular
after the pointer was moved backward by `undo` — truncates the snapshots
after the pointer and pushes exactly one snapshot, leaving
`history.length = historyIndex + 1`. -/
theorem history_length_law :
    (∀ es : List Edit, allCommit mountedState es = true →
      (runEdits mountedState es).history.length = es.length + 1 ∧
      (runEdits mountedState es).historyIndex = (es.length : Int)) ∧
    (∀ (s : AppState) (e : Edit), editCommits s e = true →
      (applyEdit s e).history =
        s.history.take (s.historyIndex + 1).toNat ++ [s.layers] ∧
      ((applyEdit s e).history.length : Int) = (applyEdit s e).historyIndex + 1) := by
  constructor
  · intro es h
    have hinv : mountedState.historyIndex =
        (mountedState.history.length : Int) - 1 := by decide
    obtain ⟨h1, h2⟩ := run_length es mountedState h hinv
    have hm : mountedState.history.length = 1 := by decide
    rw [hm] at h1
    constructor
    · omega
    · rw [h2, h1]
      push_cast
      omega
  · intro s e he
    obtain ⟨hh, hi⟩ := commit_push s e he
    refine ⟨hh, ?_⟩
    rw [hh, hi]
    omega

/-- Witness for C1: two committed `addLayer` edits from the mounted state
give history length 3 and pointer 2; and a committed edit taken from a
post-undo state truncates to `historyIndex + 1` snapshots. -/
theorem history_length_law_witness :
    ((runEdits mountedState [Edit.addL "A", Edit.addL "B"]).history.length = 2 + 1 ∧
     (runEdits mountedState [Edit.addL "A", Edit.addL "B"]).historyIndex = (2 : Int)) ∧
    ((applyEdit (undo (runEdits mountedState [Edit.addL "A", Edit.addL "B"]))
        (Edit.addL "C")).history =
      (undo (runEdits mountedState [Edit.addL "A", Edit.addL "B"])).history.take
        ((undo (runEdits mountedState [Edit.addL "A", Edit.addL "B"])).historyIndex + 1).toNat ++
        [(undo (runEdits mountedState [Edit.addL "A", Edit.addL "B"])).layers] ∧
     ((applyEdit (undo (runEdits mountedState [Edit.addL "A", Edit.addL "B"]))
        (Edit.addL "C")).history.length : Int) =
      (applyEdit (undo (runEdits mountedState [Edit.addL "A", Edit.addL "B"]))
        (Edit.addL "C")).historyIndex + 1) :=
  ⟨history_length_law.1 [Edit.addL "A", Edit.addL "B"] (by decide),
   history_length_law.2 (undo (runEdits mountedState [Edit.addL "A", Edit.addL "B"]))
     (Edit.addL "C") (by decide)⟩
